import Mathlib

/-
  Verification development for the Claude plugin-manager extension.

  The definitions below are a shallow embedding of the TypeScript sources:
  `src/lib/claude-cli.ts`, `src/lib/cache-manager.ts` and `src/lib/types.ts`,
  together with the historical revision of the CLI wrapper that carries the
  probing executable resolver (`findClaudePath` / `getClaudePath`).
  File-system access and external-process invocation are modelled by explicit
  oracle parameters; JavaScript truthiness of strings (where the source relies
  on it) is modelled by explicit emptiness tests.
-/

set_option maxHeartbeats 1000000

namespace ClaudePlugins

/-! ### String primitives

The JavaScript string operations the source relies on (`trim`, `startsWith`,
`endsWith`, `includes`, `slice`), re-implemented over the character list of a
`String` so that concrete instances evaluate inside the kernel. -/

/-- Remove leading and trailing whitespace from a character list. -/
def trimChars (cs : List Char) : List Char :=
  ((cs.dropWhile Char.isWhitespace).reverse.dropWhile Char.isWhitespace).reverse

/-- `s.trim()`. -/
def sTrim (s : String) : String := ⟨trimChars s.data⟩

/-- `s.startsWith(p)`. -/
def sStartsWith (s p : String) : Bool := s.data.take p.data.length == p.data

/-- `s.endsWith(p)`. -/
def sEndsWith (s p : String) : Bool :=
  s.data.drop (s.data.length - p.data.length) == p.data

/-- Drop the first `n` characters of `s`. -/
def sDrop (s : String) (n : Nat) : String := ⟨s.data.drop n⟩

/-- Drop the last `n` characters of `s`. -/
def sDropRight (s : String) (n : Nat) : String := ⟨s.data.take (s.data.length - n)⟩

/-- `s.includes(c)` for a single character. -/
def sContains (s : String) (c : Char) : Bool := s.data.contains c

/-- Installation scope of a plugin (`"user" | "project" | "local"` in the source). -/
inductive Scope where
  | user
  | project
  | localScope
deriving DecidableEq, Repr

/-- Render a scope as the `--scope` argument string used by the CLI wrapper. -/
def scopeStr : Scope → String
  | .user => "user"
  | .project => "project"
  | .localScope => "local"

/-- Outcome of one external-command invocation (`CLIResult` in `types.ts`).
`error = none` models an absent `error` field. -/
structure CLIResult where
  success : Bool
  output : String
  error : Option String
deriving DecidableEq, Repr

/-- The shell invocation an operation hands to `execSync`: the command string and
the optional working-directory override (the `cwd` field of `ExecSyncOptions`). -/
structure CmdSpec where
  cmd : String
  cwd : Option String
deriving DecidableEq, Repr

/-! ### External-tool command resolution (`claude-cli.ts` lines 18-36, and the
historical probing resolver) -/

/-- `path.trim().replace(/^~/, homedir())` from `initClaudePath`: a leading `~`
is replaced by the home directory. -/
def expandTilde (s home : String) : String :=
  if sStartsWith s "~" then home ++ sDrop s 1 else s

/-- `initClaudePath` (claude-cli.ts lines 18-25): computes the module-level
`claudeCommandPath` from the preference value. A missing or all-whitespace
preference clears the path to `null` (here `none`). -/
def initClaudePath (p : Option String) (home : String) : Option String :=
  match p with
  | some s => if sTrim s ≠ "" then some (expandTilde (sTrim s) home) else none
  | none => none

/-- `getClaudeCommand` (claude-cli.ts lines 31-36): the configured path when set
(and truthy), otherwise the bare command name `"claude"` for the shell's own
lookup. No probing happens here. -/
def getClaudeCommand (claudeCommandPath : Option String) : String :=
  match claudeCommandPath with
  | some p => if p = "" then "claude" else p
  | none => "claude"

/-- `CLAUDE_PATHS` (historical revision of the CLI wrapper): the fixed ordered
list of candidate install locations. Note the bare name `"claude"` is the FIRST
candidate, and the nvm entry contains a wildcard. -/
def CLAUDE_PATHS (home : String) : List String :=
  ["claude",
   home ++ "/.local/bin/claude",
   "/usr/local/bin/claude",
   "/opt/homebrew/bin/claude",
   home ++ "/.npm-global/bin/claude",
   home ++ "/.nvm/versions/node/*/bin/claude"]

/-- `findClaudePath` (historical revision): probe each candidate in order by
running a version check (the oracle `ok`), skipping entries that contain a
wildcard; if no probe succeeds, fall back to the trimmed output of
`which claude` (`whichOut`, `none` when that invocation fails too). -/
def findClaudePath (ok : String → Bool) (whichOut : Option String) (home : String) :
    Option String :=
  match (CLAUDE_PATHS home).find? (fun p => !sContains p '*' && ok p) with
  | some p => some p
  | none => Option.map sTrim whichOut

/-- The outcome `getClaudePath` derives from a resolved (or unresolved) path:
the path itself, or a raised `ClaudeNotInstalledError` (modelled as
`Except.error ()`). -/
def claudeRes (v : Option String) : Except Unit String :=
  match v with
  | some p => Except.ok p
  | none => Except.error ()

/-- One call to `getClaudePath` (historical revision): memoizes
`findClaudePath` in the module-level `cachedClaudePath` (`none` = not yet
computed). Returns the call's outcome and the new cached state. -/
def getClaudePathStep (cached : Option (Option String)) (ok : String → Bool)
    (whichOut : Option String) (home : String) :
    Except Unit String × Option (Option String) :=
  let c : Option String :=
    match cached with
    | some v => v
    | none => findClaudePath ok whichOut home
  (claudeRes c, some c)

/-! ### Single-scope lifecycle operations (`claude-cli.ts` lines 431-572) -/

/-- The working-directory selection shared by the `uninstall`/`enable`/
`disable`/`update` wrappers:
`(scope === "local" || scope === "project") && projectPath ? ... : ...`.
An empty-string `projectPath` is falsy in the source and yields no override. -/
def scopeCwd (scope : Scope) (projectPath : Option String) : Option String :=
  match projectPath with
  | some p =>
    if (scope = Scope.localScope ∨ scope = Scope.project) ∧ p ≠ "" then some p
    else none
  | none => none

/-- `installPlugin` (claude-cli.ts lines 431-448). The source function takes
only a plugin name and a scope — it has no `projectPath` parameter and passes
plain `execOptions`, so it never sets a working directory. -/
def installPlugin (claude pluginName : String) (scope : Scope) : CmdSpec :=
  { cmd := claude ++ " plugin install \"" ++ sTrim pluginName ++ "\" --scope " ++ scopeStr scope,
    cwd := none }

/-- `uninstallPlugin` (claude-cli.ts lines 453-479). -/
def uninstallPlugin (claude pluginName : String) (scope : Scope)
    (projectPath : Option String) : CmdSpec :=
  { cmd := claude ++ " plugin uninstall \"" ++ sTrim pluginName ++ "\" --scope " ++ scopeStr scope,
    cwd := scopeCwd scope projectPath }

/-- `enablePlugin` (claude-cli.ts lines 484-510). -/
def enablePlugin (claude pluginName : String) (scope : Scope)
    (projectPath : Option String) : CmdSpec :=
  { cmd := claude ++ " plugin enable \"" ++ sTrim pluginName ++ "\" --scope " ++ scopeStr scope,
    cwd := scopeCwd scope projectPath }

/-- `disablePlugin` (claude-cli.ts lines 515-541). -/
def disablePlugin (claude pluginName : String) (scope : Scope)
    (projectPath : Option String) : CmdSpec :=
  { cmd := claude ++ " plugin disable \"" ++ sTrim pluginName ++ "\" --scope " ++ scopeStr scope,
    cwd := scopeCwd scope projectPath }

/-- `updatePlugin` (claude-cli.ts lines 546-572). -/
def updatePlugin (claude pluginName : String) (scope : Scope)
    (projectPath : Option String) : CmdSpec :=
  { cmd := claude ++ " plugin update \"" ++ sTrim pluginName ++ "\" --scope " ++ scopeStr scope,
    cwd := scopeCwd scope projectPath }

/-! ### Multi-scope batch operations (`claude-cli.ts` lines 578-693) -/

/-- The part of an installation record the batch operations use. -/
structure BatchInst where
  scope : Scope
  projectPath : Option String
deriving DecidableEq, Repr

/-- Per-installation command for `updatePluginAllScopes`. -/
def updateSpec (claude pluginName : String) (i : BatchInst) : CmdSpec :=
  { cmd := claude ++ " plugin update \"" ++ sTrim pluginName ++ "\" --scope " ++ scopeStr i.scope,
    cwd := scopeCwd i.scope i.projectPath }

/-- Per-installation command for `uninstallPluginAllScopes`. -/
def uninstallSpec (claude pluginName : String) (i : BatchInst) : CmdSpec :=
  { cmd := claude ++ " plugin uninstall \"" ++ sTrim pluginName ++ "\" --scope " ++ scopeStr i.scope,
    cwd := scopeCwd i.scope i.projectPath }

/-- Success message pushed onto `results` by `updatePluginAllScopes`. -/
def updateOkMsg (i : BatchInst) (o : String) : String :=
  "Updated in " ++ scopeStr i.scope ++ " scope: " ++ o

/-- Failure message pushed onto `errors` by `updatePluginAllScopes`. -/
def updateErrMsg (i : BatchInst) (m : String) : String :=
  "Failed to update in " ++ scopeStr i.scope ++ " scope: " ++ m

/-- Success message pushed onto `results` by `uninstallPluginAllScopes`. -/
def uninstallOkMsg (i : BatchInst) (o : String) : String :=
  "Uninstalled from " ++ scopeStr i.scope ++ " scope: " ++ o

/-- Failure message pushed onto `errors` by `uninstallPluginAllScopes`. -/
def uninstallErrMsg (i : BatchInst) (m : String) : String :=
  "Failed to uninstall from " ++ scopeStr i.scope ++ " scope: " ++ m

/-- The `for` loop of the all-scopes batch operations: run each installation in
order, collecting success messages into `results` (first component) and failure
messages into `errors` (second component). `run` is the oracle giving each
`execSync` call's outcome. -/
def batchLoop (run : CmdSpec → Except String String) (mkSpec : BatchInst → CmdSpec)
    (okM errM : BatchInst → String → String) :
    List BatchInst → List String × List String
  | [] => ([], [])
  | i :: rest =>
    let res := batchLoop run mkSpec okM errM rest
    match run (mkSpec i) with
    | .ok o => (okM i o :: res.1, res.2)
    | .error m => (res.1, errM i m :: res.2)

/-- `results.join("\n")` / `errors.join("\n")`. -/
def joinNl (l : List String) : String := String.intercalate "\n" l

/-- The aggregation at the end of both all-scopes operations: all failed /
some failed / none failed. `total` is `installations.length`. -/
def aggregateResult (results errors : List String) (total : Nat) : CLIResult :=
  if errors.length = total then
    { success := false, output := joinNl results, error := some (joinNl errors) }
  else if errors.length > 0 then
    { success := true,
      output := joinNl results ++ "\n\nWarnings:\n" ++ joinNl errors,
      error := none }
  else
    { success := true, output := joinNl results, error := none }

/-- `updatePluginAllScopes` (claude-cli.ts lines 578-633). -/
def updatePluginAllScopes (claude : String) (run : CmdSpec → Except String String)
    (pluginName : String) (installations : List BatchInst) : CLIResult :=
  let re := batchLoop run (updateSpec claude pluginName) updateOkMsg updateErrMsg installations
  aggregateResult re.1 re.2 installations.length

/-- `uninstallPluginAllScopes` (claude-cli.ts lines 638-693). -/
def uninstallPluginAllScopes (claude : String) (run : CmdSpec → Except String String)
    (pluginName : String) (installations : List BatchInst) : CLIResult :=
  let re := batchLoop run (uninstallSpec claude pluginName) uninstallOkMsg uninstallErrMsg installations
  aggregateResult re.1 re.2 installations.length

/-- The success messages the batch loop collects, in iteration order. -/
def batchOks (run : CmdSpec → Except String String) (mkSpec : BatchInst → CmdSpec)
    (okM : BatchInst → String → String) (l : List BatchInst) : List String :=
  l.filterMap fun i =>
    match run (mkSpec i) with
    | .ok o => some (okM i o)
    | .error _ => none

/-- The failure messages the batch loop collects, in iteration order. -/
def batchErrs (run : CmdSpec → Except String String) (mkSpec : BatchInst → CmdSpec)
    (errM : BatchInst → String → String) (l : List BatchInst) : List String :=
  l.filterMap fun i =>
    match run (mkSpec i) with
    | .ok _ => none
    | .error m => some (errM i m)

/-! ### TTL cache layer (`cache-manager.ts`) -/

/-- What deserializing a stored cache envelope can yield: a well-formed
`{value, timestamp}` pair, or a `JSON.parse` failure. -/
inductive Envelope (α : Type) where
  | corrupt
  | valid (value : α) (timestamp : Int)
deriving DecidableEq, Repr

/-- `getCachedData` (cache-manager.ts lines 26-51). `cell` is what
`cache.get(key)` deserializes to (`none` = no stored string), `now` is
`Date.now()`, and `fetched` is the value the fetcher produces when invoked.
Returns the value returned to the caller, the cache cell after the call, and
the number of times the fetcher was invoked. -/
def getCachedData {α : Type} (ttl now : Int) (cell : Option (Envelope α))
    (fetched : α) : α × Option (Envelope α) × Nat :=
  match cell with
  | some (.valid v ts) =>
    if now - ts < ttl then (v, cell, 0)
    else (fetched, some (.valid fetched now), 1)
  | some .corrupt => (fetched, some (.valid fetched now), 1)
  | none => (fetched, some (.valid fetched now), 1)

/-- `invalidateCache` (cache-manager.ts lines 56-58): `cache.remove(key)`. -/
def invalidateCache {α : Type} (_cell : Option (Envelope α)) : Option (Envelope α) :=
  none

/-! ### Catalog data model (`types.ts`) -/

/-- An `author` object (`{ name, email? }`). Object truthiness in the source is
modelled by `Option` at the use sites. -/
structure Author where
  name : String
  email : Option String
deriving DecidableEq, Repr

/-- One record of `InstalledPlugin` (`types.ts`): one physical installation,
flattened out of `installed_plugins.json` with its owning `pluginId`. -/
structure InstalledPlugin where
  pluginId : String
  scope : Scope
  installPath : String
  version : String
  installedAt : String
  lastUpdated : String
  isLocal : Bool
  enabled : Option Bool
  projectPath : Option String
deriving DecidableEq, Repr

/-- One entry of `InstalledPluginsData.plugins[pluginId]` as stored on disk
(before the `pluginId` is attached). -/
structure InstallEntry where
  scope : Scope
  installPath : String
  version : String
  installedAt : String
  lastUpdated : String
  isLocal : Bool
  enabled : Option Bool
  projectPath : Option String
deriving DecidableEq, Repr

/-- `InstalledPluginsData` (`installed_plugins.json`): `plugins` is an object
whose `Object.entries` order we model as an association list. -/
structure InstalledPluginsData where
  version : Nat
  plugins : List (String × List InstallEntry)
deriving DecidableEq, Repr

/-- The source description of a marketplace in `known_marketplaces.json`,
kept abstract (the reconciliation engine never inspects it). -/
structure MarketplaceSource where
  type : String
  repo : Option String
  path : Option String
  url : Option String
deriving DecidableEq, Repr

/-- Value part of one `known_marketplaces.json` entry. -/
structure MarketplaceInfo where
  source : MarketplaceSource
  installLocation : String
  lastUpdated : String
deriving DecidableEq, Repr

/-- `MarketplacesData` (`known_marketplaces.json`): an object keyed by
marketplace name, modelled in `Object.entries` order. -/
def MarketplacesData := List (String × MarketplaceInfo)

/-- `Marketplace` (`types.ts`), as produced by `getMarketplaces`. -/
structure Marketplace where
  name : String
  source : MarketplaceSource
  installLocation : String
  lastUpdated : String
deriving DecidableEq, Repr

/-- `PluginSource` (`types.ts`): a structured external reference. -/
structure PluginSource where
  sourceKind : String
  url : Option String
  repo : Option String
deriving DecidableEq, Repr

/-- The `source` field of a marketplace listing entry:
`string | PluginSource`. -/
inductive EntrySource where
  | str (relPath : String)
  | ext (s : PluginSource)
deriving DecidableEq, Repr

/-- `MarketplacePluginEntry` (`types.ts`): one plugin as declared in a
marketplace's listing manifest. -/
structure MarketplacePluginEntry where
  name : String
  description : String
  version : Option String
  author : Option Author
  source : EntrySource
  homepage : Option String
deriving DecidableEq, Repr

/-- `MarketplaceManifest` (`marketplace.json`). `plugins = none` models a
parsed JSON object without a `plugins` array (the source checks
`!manifest.plugins`). -/
structure MarketplaceManifest where
  name : String
  description : String
  plugins : Option (List MarketplacePluginEntry)
deriving DecidableEq, Repr

/-- A named component inventory (`{ count, names }`). -/
structure Inventory where
  count : Nat
  names : List String
deriving DecidableEq, Repr

/-- The `components` object of a `Plugin`; every field optional, matching the
`types.ts` shape. The empty object literal used as the fallback is
`Components.empty`. -/
structure Components where
  commands : Option Inventory
  skills : Option Inventory
  agents : Option Inventory
  hooks : Option Inventory
  mcp : Option Bool
deriving DecidableEq, Repr

/-- The `{}` fallback for `components`. -/
def Components.empty : Components :=
  { commands := none, skills := none, agents := none, hooks := none, mcp := none }

/-- The `Partial<Plugin>` returned by `parsePluginMetadata` (when it does not
return `null`). -/
structure PluginMeta where
  name : Option String
  version : Option String
  description : Option String
  author : Option Author
  components : Components
  repositoryUrl : Option String
deriving DecidableEq, Repr

/-- One element of a reconciled plugin's `installations` array
(`PluginInstallation` in `types.ts`, with `enabled` already normalized). -/
structure PluginInstallation where
  scope : Scope
  version : String
  installPath : String
  enabled : Bool
  projectPath : Option String
deriving DecidableEq, Repr

/-- The legacy `installStatus` object computed from the first installation. -/
structure InstallStatus where
  installed : Bool
  scope : Scope
  version : String
  installPath : String
  enabled : Bool
deriving DecidableEq, Repr

/-- The reconciled `Plugin` entity (`types.ts`). -/
structure Plugin where
  name : String
  version : String
  description : String
  author : Option Author
  marketplace : String
  marketplacePath : Option String
  components : Components
  repositoryUrl : Option String
  installations : List PluginInstallation
  installStatus : Option InstallStatus
deriving DecidableEq, Repr

/-! ### File-system oracle and registry readers -/

/-- The ambient local state the read path consumes. For the two registry files
and each marketplace manifest, `none` models a missing file and
`some (.error ())` a file that exists but fails to parse. `metaAt` is the
result of `parsePluginMetadata` at a plugin path (`none` covers every failure
branch of that function). -/
structure FS where
  installedFile : Option (Except Unit InstalledPluginsData)
  marketplacesFile : Option (Except Unit MarketplacesData)
  manifestAt : String → Option (Except Unit MarketplaceManifest)
  dirExists : String → Bool
  metaAt : String → Option PluginMeta

/-- `path.join` restricted to the shapes the engine uses. -/
def joinPath (a b : String) : String := a ++ "/" ++ b

/-- `getInstalledPlugins` (claude-cli.ts lines 82-114): flatten the registry
into one record per installation; a missing or unparsable file yields `[]`. -/
def getInstalledPlugins (fs : FS) : List InstalledPlugin :=
  match fs.installedFile with
  | none => []
  | some (.error _) => []
  | some (.ok data) =>
    data.plugins.flatMap fun pr =>
      pr.2.map fun i =>
        { pluginId := pr.1
          scope := i.scope
          installPath := i.installPath
          version := i.version
          installedAt := i.installedAt
          lastUpdated := i.lastUpdated
          isLocal := i.isLocal
          enabled := i.enabled
          projectPath := i.projectPath }

/-- `getMarketplaces` (claude-cli.ts lines 119-140): one `Marketplace` per
registry entry; a missing or unparsable file yields `[]`. -/
def getMarketplaces (fs : FS) : List Marketplace :=
  match fs.marketplacesFile with
  | none => []
  | some (.error _) => []
  | some (.ok data) =>
    data.map fun pr =>
      { name := pr.1
        source := pr.2.source
        installLocation := pr.2.installLocation
        lastUpdated := pr.2.lastUpdated }

/-- The fixed conventional manifest location under a marketplace checkout. -/
def manifestPath (marketplacePath : String) : String :=
  joinPath marketplacePath ".claude-plugin/marketplace.json"

/-- `readMarketplaceManifest` (claude-cli.ts lines 295-318): `none` when the
manifest file is missing or fails to parse. -/
def readMarketplaceManifest (fs : FS) (marketplacePath : String) :
    Option MarketplaceManifest :=
  match fs.manifestAt (manifestPath marketplacePath) with
  | none => none
  | some (.error _) => none
  | some (.ok m) => some m

/-- `resolvePluginPath` (claude-cli.ts lines 323-336): a string source is
resolved against the marketplace checkout and kept only if the directory
exists; structured external sources never resolve. -/
def resolvePluginPath (fs : FS) (marketplacePath : String)
    (entry : MarketplacePluginEntry) : Option String :=
  match entry.source with
  | .str s =>
    let pluginPath := joinPath marketplacePath s
    if fs.dirExists pluginPath then some pluginPath else none
  | .ext _ => none

/-! ### Catalog reconciliation (`getAllAvailablePlugins`) -/

/-- JavaScript `a || b` on an optional string: an empty string is falsy. -/
def jsOrS (a b : Option String) : Option String :=
  match a with
  | some s => if s = "" then b else some s
  | none => b

/-- Normalization of one matching installation record into a
`PluginInstallation` (the `.map` at claude-cli.ts lines 369-375), defaulting a
missing `enabled` to `true`. -/
def normInstall (r : InstalledPlugin) : PluginInstallation :=
  { scope := r.scope
    version := r.version
    installPath := r.installPath
    enabled := r.enabled.getD true
    projectPath := r.projectPath }

/-- The composite id computed for a listing entry:
`entry.name.trim() + "@" + marketplace.name.trim()`. -/
def entryPluginId (entry : MarketplacePluginEntry) (m : Marketplace) : String :=
  sTrim entry.name ++ "@" ++ sTrim m.name

/-- The body of the per-entry loop of `getAllAvailablePlugins`
(claude-cli.ts lines 363-415): builds the reconciled `Plugin` for one listing
entry of one marketplace. -/
def buildPlugin (fs : FS) (installedPlugins : List InstalledPlugin)
    (m : Marketplace) (entry : MarketplacePluginEntry) : Plugin :=
  let pluginId := entryPluginId entry m
  let installations :=
    (installedPlugins.filter fun p => p.pluginId == pluginId).map normInstall
  let pluginPath := resolvePluginPath fs m.installLocation entry
  let detailedMetadata : Option PluginMeta :=
    match pluginPath with
    | some pp => fs.metaAt pp
    | none => none
  let installStatus : Option InstallStatus :=
    match installations with
    | [] => none
    | first :: _ =>
      some { installed := true
             scope := first.scope
             version := first.version
             installPath := first.installPath
             enabled := first.enabled }
  { name := entry.name
    version :=
      (jsOrS entry.version
        (jsOrS (detailedMetadata.bind PluginMeta.version) none)).getD "unknown"
    description :=
      (jsOrS (some entry.description)
        (jsOrS (detailedMetadata.bind PluginMeta.description) none)).getD ""
    author :=
      match entry.author with
      | some a => some a
      | none => detailedMetadata.bind PluginMeta.author
    marketplace := m.name
    marketplacePath := jsOrS pluginPath none
    components :=
      match detailedMetadata with
      | some md => md.components
      | none => Components.empty
    repositoryUrl :=
      jsOrS entry.homepage (detailedMetadata.bind PluginMeta.repositoryUrl)
    installations := installations
    installStatus := installStatus }

/-- The plugins one marketplace contributes to the catalog: none when its
manifest is missing, unparsable, or lacks a `plugins` array; otherwise one
`Plugin` per listing entry, in listing order. -/
def marketplacePlugins (fs : FS) (installedPlugins : List InstalledPlugin)
    (m : Marketplace) : List Plugin :=
  match readMarketplaceManifest fs m.installLocation with
  | none => []
  | some manifest =>
    match manifest.plugins with
    | none => []
    | some entries => entries.map (buildPlugin fs installedPlugins m)

/-- The catalog over an explicit marketplace list (the `for` loop of
`getAllAvailablePlugins`). -/
def catalogFor (fs : FS) (installedPlugins : List InstalledPlugin)
    (marketplaces : List Marketplace) : List Plugin :=
  marketplaces.flatMap (marketplacePlugins fs installedPlugins)

/-- `getAllAvailablePlugins` (claude-cli.ts lines 342-426): load both
registries, then fold every marketplace's contribution in order. The source's
per-marketplace `try`/`catch` cannot fire in this total model; its effect
(isolation of a failing marketplace) shows up as the `[]` contribution. -/
def getAllAvailablePlugins (fs : FS) : List Plugin :=
  catalogFor fs (getInstalledPlugins fs) (getMarketplaces fs)

/-! ### Skill inventory resolution (`claude-cli.ts` lines 226-290) -/

/-- The double-quote and single-quote characters (written via code points to
keep the development free of quote-literal noise). -/
def dquote : Char := Char.ofNat 34

/-- The single-quote character. -/
def squote : Char := Char.ofNat 39

/-- The quote-stripping step of `parseYamlFrontmatter`: surrounding double or
single quotes are removed (`value.slice(1, -1)`). -/
def stripQuotes (v : String) : String :=
  let cs := v.toList
  if (cs.head? = some dquote ∧ cs.getLast? = some dquote) ∨
      (cs.head? = some squote ∧ cs.getLast? = some squote) then
    String.mk ((cs.drop 1).dropLast)
  else v

/-- One line of a front-matter block, split at its first colon
(`line.indexOf(":")`, kept only when the index is positive), with key and
value trimmed and the value unquoted. -/
def frontmatterLine (line : String) : Option (String × String) :=
  let cs := line.toList
  match cs.findIdx? (fun c => c = ':') with
  | some idx =>
    if idx > 0 then
      some (String.mk (trimChars (cs.take idx)),
            stripQuotes (String.mk (trimChars (cs.drop (idx + 1)))))
    else none
  | none => none

/-- The record-building loop of `parseYamlFrontmatter` over the lines of the
front-matter block. Later lines overwrite earlier keys (object assignment),
so lookups must take the last binding. -/
def parseFrontmatter (lines : List String) : List (String × String) :=
  lines.filterMap frontmatterLine

/-- Lookup in the frontmatter object: the last assignment to a key wins. -/
def objGet (kvs : List (String × String)) (k : String) : Option String :=
  kvs.reverse.lookup k

/-- A `SKILL.md` file, reduced to its front-matter block: `none` when the file
has no front-matter (the regex in `parseYamlFrontmatter` does not match),
otherwise the block's lines. -/
structure SkillDoc where
  frontmatter : Option (List String)
deriving DecidableEq, Repr

/-- `extractSkillName` (claude-cli.ts lines 252-256):
`frontmatter?.name || fallbackName` — the declared name wins unless it is
absent or empty. -/
def extractSkillName (doc : SkillDoc) (fallbackName : String) : String :=
  match doc.frontmatter with
  | none => fallbackName
  | some lines =>
    match objGet (parseFrontmatter lines) "name" with
    | some n => if n = "" then fallbackName else n
    | none => fallbackName

/-- One entry of `readdirSync(dir, { withFileTypes: true })`: a flat file, or a
subdirectory together with its `SKILL.md` (`none` when no such file exists). -/
inductive DirEntry where
  | file (name : String)
  | dir (name : String) (skillDoc : Option SkillDoc)
deriving DecidableEq, Repr

/-- `replace(/\.(md|sh)$/, "")`. -/
def stripComponentExt (name : String) : String :=
  if sEndsWith name ".md" then sDropRight name 3
  else if sEndsWith name ".sh" then sDropRight name 3
  else name

/-- `getSkillsFromDirectory` (claude-cli.ts lines 262-290). `dir` is the
directory's entry list, `none` when the directory does not exist. -/
def getSkillsFromDirectory (dir : Option (List DirEntry)) : Inventory :=
  match dir with
  | none => { count := 0, names := [] }
  | some entries =>
    let names := entries.filterMap fun e =>
      match e with
      | .dir n doc? =>
        match doc? with
        | some doc => some (extractSkillName doc n)
        | none => none
      | .file n =>
        if sEndsWith n ".md" || sEndsWith n ".sh" then some (stripComponentExt n)
        else none
    { count := names.length, names := names }

/-! ## Theorems -/

/-- C7: when the installed-plugin registry file or the marketplace registry
file is missing, or exists but fails to parse, `getInstalledPlugins` and
`getMarketplaces` return the empty list rather than an error value. -/
theorem registry_reads_never_fail (fs : FS)
    (hi : fs.installedFile = none ∨ fs.installedFile = some (Except.error ()))
    (hm : fs.marketplacesFile = none ∨ fs.marketplacesFile = some (Except.error ())) :
    getInstalledPlugins fs = [] ∧ getMarketplaces fs = [] := by
  constructor
  · rcases hi with h | h <;> simp [getInstalledPlugins, h]
  · rcases hm with h | h <;> simp [getMarketplaces, h]

/-- Witness for C7: a state with a missing installed-plugin registry and an
unparsable marketplace registry yields two empty lists. -/
theorem registry_reads_never_fail_witness :
    getInstalledPlugins
      ⟨none, some (Except.error ()), fun _ => none, fun _ => false, fun _ => none⟩ = [] ∧
    getMarketplaces
      ⟨none, some (Except.error ()), fun _ => none, fun _ => false, fun _ => none⟩ = [] :=
  registry_reads_never_fail _ (Or.inl rfl) (Or.inr rfl)

/-- C10: calling `updatePluginAllScopes` or `uninstallPluginAllScopes` with an
empty installations list invokes the external CLI zero times (the result does
not depend on the `run` oracle) and reports through the total-failure branch:
`success = false`, empty `output`, empty `error`. -/
theorem empty_batch_total_failure (claude pluginName : String)
    (run run2 : CmdSpec → Except String String) :
    updatePluginAllScopes claude run pluginName [] =
      { success := false, output := "", error := some "" } ∧
    uninstallPluginAllScopes claude run pluginName [] =
      { success := false, output := "", error := some "" } ∧
    updatePluginAllScopes claude run pluginName [] =
      updatePluginAllScopes claude run2 pluginName [] ∧
    uninstallPluginAllScopes claude run pluginName [] =
      uninstallPluginAllScopes claude run2 pluginName [] :=
  ⟨rfl, rfl, rfl, rfl⟩

/-- C5: TTL cache behavior of `getCachedData` — a stored envelope within `ttl`
of `now` is returned without invoking the fetcher; a missing cell, a corrupt
(undeserializable) envelope, or an expired timestamp invokes the fetcher
exactly once, stores `{value, timestamp := now}`, and returns the fresh value;
two reads within the TTL window fetch once in total, while `invalidateCache`
between the reads forces the second read to fetch again. -/
theorem getCachedData_ttl {α : Type} (ttl now t1 t2 ts : Int) (v f f2 : α) :
    (now - ts < ttl →
      getCachedData ttl now (some (Envelope.valid v ts)) f =
        (v, some (Envelope.valid v ts), 0)) ∧
    (ttl ≤ now - ts →
      getCachedData ttl now (some (Envelope.valid v ts)) f =
        (f, some (Envelope.valid f now), 1)) ∧
    (getCachedData ttl now (none : Option (Envelope α)) f =
      (f, some (Envelope.valid f now), 1)) ∧
    (getCachedData ttl now (some (Envelope.corrupt : Envelope α)) f =
      (f, some (Envelope.valid f now), 1)) ∧
    (t2 - t1 < ttl →
      getCachedData ttl t2 (getCachedData ttl t1 (none : Option (Envelope α)) f).2.1 f2 =
        (f, (getCachedData ttl t1 (none : Option (Envelope α)) f).2.1, 0)) ∧
    (getCachedData ttl t2
        (invalidateCache (getCachedData ttl t1 (none : Option (Envelope α)) f).2.1) f2 =
      (f2, some (Envelope.valid f2 t2), 1)) := by
  refine ⟨fun h => ?_, fun h => ?_, rfl, rfl, fun h => ?_, rfl⟩
  · simp [getCachedData, if_pos h]
  · simp [getCachedData, if_neg (not_lt.mpr h)]
  · simp [getCachedData, invalidateCache, if_pos h]

/-- Witness for C5: at `ttl = 300000`, a hit 10ms after the store returns the
stored value with zero fetches, and an expired read 300000ms after the store
fetches once. -/
theorem getCachedData_ttl_witness :
    getCachedData 300000 1010 (some (Envelope.valid (7 : Int) 1000)) 9 =
      (7, some (Envelope.valid 7 1000), 0) ∧
    getCachedData 300000 301000 (some (Envelope.valid (7 : Int) 1000)) 9 =
      (9, some (Envelope.valid 9 301000), 1) :=
  ⟨(getCachedData_ttl 300000 1010 0 0 1000 7 9 9).1 (by norm_num),
   (getCachedData_ttl 300000 301000 0 0 1000 7 9 9).2.1 (by norm_num)⟩

/-- C3 counterexample: `installPlugin` (claude-cli.ts lines 431-448) has no
`projectPath` parameter and passes plain `execOptions`, so even at `project` or
`local` scope its external process is never given a working-directory
override — contradicting the claim that all five lifecycle operations accept a
`projectPath` and apply it as the working directory for those scopes. -/
theorem installPlugin_never_sets_cwd :
    (installPlugin "claude" "plugin-dev@claude-code-plugins" Scope.project).cwd = none ∧
    (installPlugin "claude" "plugin-dev@claude-code-plugins" Scope.localScope).cwd = none :=
  ⟨rfl, rfl⟩

/-- C3 amended: the four operations uninstall/enable/disable/update accept a
plugin id, a scope, and an optional `projectPath`, and run the external process
with working directory `projectPath` exactly when the scope is `project` or
`local` and a non-empty `projectPath` was supplied; at `user` scope, or with no
`projectPath`, no override is applied. `installPlugin` accepts only a plugin id
and a scope and never applies a working-directory override. -/
theorem lifecycle_cwd_policy (claude pluginName p : String) (scope : Scope)
    (pp : Option String) (op : String → String → Scope → Option String → CmdSpec)
    (hop : op ∈ [uninstallPlugin, enablePlugin, disablePlugin, updatePlugin]) :
    ((scope = Scope.project ∨ scope = Scope.localScope) → p ≠ "" →
      (op claude pluginName scope (some p)).cwd = some p) ∧
    (op claude pluginName scope none).cwd = none ∧
    (op claude pluginName Scope.user pp).cwd = none ∧
    (installPlugin claude pluginName scope).cwd = none := by
  have hcwd : ∀ sc q, (op claude pluginName sc q).cwd = scopeCwd sc q := by
    intro sc q
    simp only [List.mem_cons, List.mem_singleton, List.not_mem_nil, or_false] at hop
    rcases hop with h | h | h | h <;> subst h <;>
      simp [uninstallPlugin, enablePlugin, disablePlugin, updatePlugin]
  refine ⟨fun hs hp => ?_, ?_, ?_, rfl⟩
  · rw [hcwd]
    rcases hs with h | h <;> subst h <;> simp [scopeCwd, hp]
  · rw [hcwd]; rfl
  · rw [hcwd]
    cases pp with
    | none => rfl
    | some q => simp [scopeCwd]

/-- Witness for C3's amended statement: `uninstallPlugin` at `project` scope
with `projectPath = "/tmp/proj"` runs with working directory `/tmp/proj`. -/
theorem lifecycle_cwd_policy_witness :
    (uninstallPlugin "claude" "plugin-dev@mkt" Scope.project (some "/tmp/proj")).cwd =
      some "/tmp/proj" :=
  (lifecycle_cwd_policy "claude" "plugin-dev@mkt" "/tmp/proj" Scope.project none
      uninstallPlugin (by simp)).1 (Or.inl rfl) (by decide)

/-- C4 counterexample: in the probing resolver, when every probed location
fails the version check and the `which` fallback also fails, resolution yields
no path at all and `getClaudePath` raises the not-installed error — the bare
command name `"claude"` is NOT used as a last-resort fallback (it is the first
probed candidate instead). -/
theorem findClaudePath_no_bare_fallback :
    findClaudePath (fun _ => false) none "/Users/u" = none ∧
    findClaudePath (fun _ => false) none "/Users/u" ≠ some "claude" ∧
    (getClaudePathStep none (fun _ => false) none "/Users/u").1 = Except.error () :=
  ⟨rfl, by decide, rfl⟩

/-- C4 amended: in the active resolver (`claude-cli.ts`), a configured explicit
path — trimmed and tilde-expanded — takes precedence when set and non-blank,
and otherwise the bare command name `"claude"` is used directly, with no
probing. In the historical probing resolver, a fixed ordered candidate list
whose FIRST entry is the bare name is probed by version check (wildcard entries
skipped), the result of the first computation is cached and reused for the
remainder of the process lifetime, and when every probe fails the fallback is
the trimmed output of `which claude`, not a bare command name. -/
theorem claude_command_resolution (s home : String) (ok : String → Bool)
    (whichOut : Option String) (v : Option String)
    (hs : sTrim s ≠ "") (hx : expandTilde (sTrim s) home ≠ "") :
    getClaudeCommand (initClaudePath (some s) home) = expandTilde (sTrim s) home ∧
    getClaudeCommand (initClaudePath none home) = "claude" ∧
    (ok "claude" = true → findClaudePath ok whichOut home = some "claude") ∧
    ((∀ q ∈ CLAUDE_PATHS home, !sContains q '*' → ok q = false) →
      findClaudePath ok whichOut home = Option.map sTrim whichOut) ∧
    getClaudePathStep (some v) ok whichOut home = (claudeRes v, some v) ∧
    getClaudePathStep none ok whichOut home =
      (claudeRes (findClaudePath ok whichOut home),
       some (findClaudePath ok whichOut home)) := by
  refine ⟨?_, rfl, fun hok => ?_, fun hall => ?_, rfl, rfl⟩
  · simp [initClaudePath, hs, getClaudeCommand, hx]
  · have h1 : (!sContains "claude" '*') = true := by decide
    simp [findClaudePath, CLAUDE_PATHS, List.find?, h1, hok]
  · have hnone : (CLAUDE_PATHS home).find? (fun q => !sContains q '*' && ok q) = none := by
      rw [List.find?_eq_none]
      intro q hq
      by_cases hw : sContains q '*'
      · simp [hw]
      · simp only [Bool.not_eq_true] at hw
        simp [hw, hall q hq (by simp [hw])]
    simp [findClaudePath, hnone]

/-- Witness for C4's amended statement: with the preference set to
`~/bin/claude ` and home `/Users/u`, the command used is `/Users/u/bin/claude`;
with no preference it is `claude`; and in the historical resolver a version
check that only succeeds for `/usr/local/bin/claude` resolves to that path. -/
theorem claude_command_resolution_witness :
    getClaudeCommand (initClaudePath (some "~/bin/claude ") "/Users/u") =
      "/Users/u/bin/claude" ∧
    getClaudeCommand (initClaudePath none "/Users/u") = "claude" ∧
    findClaudePath (fun q => q == "/usr/local/bin/claude") none "/Users/u" =
      some "/usr/local/bin/claude" := by
  have h := claude_command_resolution "~/bin/claude " "/Users/u"
    (fun q => q == "/usr/local/bin/claude") none none (by decide) (by decide)
  exact ⟨h.1.trans (by decide), h.2.1, by decide⟩

/-- C9: skill inventory resolution — for a skills directory holding exactly one
subdirectory whose `SKILL.md` front-matter declares `name: "custom-name"` and
one flat file `foo.md`, the names list is exactly `["custom-name", "foo"]`;
in general a subdirectory skill's declared (non-empty) front-matter `name` wins
over the directory name, and the directory name is the fallback when the
declaration is absent or the descriptor has no front-matter. -/
theorem skills_resolution (dname : String) (doc : SkillDoc) :
    getSkillsFromDirectory
        (some [DirEntry.dir "my-skill" (some ⟨some ["name: \"custom-name\""]⟩),
               DirEntry.file "foo.md"]) =
      { count := 2, names := ["custom-name", "foo"] } ∧
    (∀ lines n, doc.frontmatter = some lines →
      objGet (parseFrontmatter lines) "name" = some n → n ≠ "" →
      extractSkillName doc dname = n) ∧
    (∀ lines, doc.frontmatter = some lines →
      objGet (parseFrontmatter lines) "name" = none →
      extractSkillName doc dname = dname) ∧
    (doc.frontmatter = none → extractSkillName doc dname = dname) ∧
    (∀ docOpt, getSkillsFromDirectory (some [DirEntry.dir dname docOpt]) =
      match docOpt with
      | some d => { count := 1, names := [extractSkillName d dname] }
      | none => { count := 0, names := [] }) := by
  refine ⟨by decide, fun lines n hl hn hne => ?_, fun lines hl hn => ?_,
    fun hl => ?_, fun docOpt => ?_⟩
  · simp [extractSkillName, hl, hn, hne]
  · simp [extractSkillName, hl, hn]
  · simp [extractSkillName, hl]
  · cases docOpt <;> simp [getSkillsFromDirectory]

/-- The batch loop splits into the collected success and failure messages. -/
theorem batchLoop_eq (run : CmdSpec → Except String String)
    (mkSpec : BatchInst → CmdSpec) (okM errM : BatchInst → String → String) :
    ∀ l, batchLoop run mkSpec okM errM l =
      (batchOks run mkSpec okM l, batchErrs run mkSpec errM l) := by
  intro l
  induction l with
  | nil => rfl
  | cons i rest ih =>
    cases h : run (mkSpec i) with
    | ok o => simp [batchLoop, batchOks, batchErrs, List.filterMap_cons, h, ih]
    | error m => simp [batchLoop, batchOks, batchErrs, List.filterMap_cons, h, ih]

/-- Each installation contributes to exactly one of the two message lists. -/
theorem batch_len (run : CmdSpec → Except String String)
    (mkSpec : BatchInst → CmdSpec) (okM errM : BatchInst → String → String) :
    ∀ l, (batchOks run mkSpec okM l).length + (batchErrs run mkSpec errM l).length
      = l.length := by
  intro l
  induction l with
  | nil => rfl
  | cons i rest ih =>
    cases h : run (mkSpec i) with
    | ok o =>
      simp only [batchOks, batchErrs, List.filterMap_cons, h] at *
      simp [List.length_cons]
      omega
    | error m =>
      simp only [batchOks, batchErrs, List.filterMap_cons, h] at *
      simp [List.length_cons]
      omega

/-- When every invocation fails, no success message is collected. -/
theorem batchOks_eq_nil (run : CmdSpec → Except String String)
    (mkSpec : BatchInst → CmdSpec) (okM : BatchInst → String → String)
    (l : List BatchInst)
    (hall : ∀ i ∈ l, ∃ m, run (mkSpec i) = Except.error m) :
    batchOks run mkSpec okM l = [] := by
  induction l with
  | nil => rfl
  | cons i rest ih =>
    obtain ⟨m, hm⟩ := hall i (List.mem_cons_self i rest)
    simp only [batchOks, List.filterMap_cons, hm]
    exact ih fun j hj => hall j (List.mem_cons_of_mem i hj)

/-- When every invocation succeeds, no failure message is collected. -/
theorem batchErrs_eq_nil (run : CmdSpec → Except String String)
    (mkSpec : BatchInst → CmdSpec) (errM : BatchInst → String → String)
    (l : List BatchInst)
    (hall : ∀ i ∈ l, ∃ o, run (mkSpec i) = Except.ok o) :
    batchErrs run mkSpec errM l = [] := by
  induction l with
  | nil => rfl
  | cons i rest ih =>
    obtain ⟨o, ho⟩ := hall i (List.mem_cons_self i rest)
    simp only [batchErrs, List.filterMap_cons, ho]
    exact ih fun j hj => hall j (List.mem_cons_of_mem i hj)

/-- A successful invocation contributes its success message. -/
theorem batchOks_ne_nil (run : CmdSpec → Except String String)
    (mkSpec : BatchInst → CmdSpec) (okM : BatchInst → String → String)
    (l : List BatchInst) (i : BatchInst) (o : String) (hi : i ∈ l)
    (ho : run (mkSpec i) = Except.ok o) :
    batchOks run mkSpec okM l ≠ [] := by
  have : okM i o ∈ batchOks run mkSpec okM l :=
    List.mem_filterMap.mpr ⟨i, hi, by simp [ho]⟩
  exact List.ne_nil_of_mem this

/-- A failing invocation contributes its failure message. -/
theorem batchErrs_ne_nil (run : CmdSpec → Except String String)
    (mkSpec : BatchInst → CmdSpec) (errM : BatchInst → String → String)
    (l : List BatchInst) (i : BatchInst) (m : String) (hi : i ∈ l)
    (hm : run (mkSpec i) = Except.error m) :
    batchErrs run mkSpec errM l ≠ [] := by
  have : errM i m ∈ batchErrs run mkSpec errM l :=
    List.mem_filterMap.mpr ⟨i, hi, by simp [hm]⟩
  exact List.ne_nil_of_mem this

/-- The three-way aggregation rule, generically over the message formats of
the two batch operations. -/
theorem batch_aggregate (run : CmdSpec → Except String String)
    (mkSpec : BatchInst → CmdSpec) (okM errM : BatchInst → String → String)
    (installs : List BatchInst) (hne : installs ≠ []) :
    ((∀ i ∈ installs, ∃ m, run (mkSpec i) = Except.error m) →
      aggregateResult (batchLoop run mkSpec okM errM installs).1
          (batchLoop run mkSpec okM errM installs).2 installs.length =
        { success := false, output := "",
          error := some (joinNl (batchErrs run mkSpec errM installs)) }) ∧
    ((∀ i ∈ installs, ∃ o, run (mkSpec i) = Except.ok o) →
      aggregateResult (batchLoop run mkSpec okM errM installs).1
          (batchLoop run mkSpec okM errM installs).2 installs.length =
        { success := true, output := joinNl (batchOks run mkSpec okM installs),
          error := none }) ∧
    ((∃ i ∈ installs, ∃ o, run (mkSpec i) = Except.ok o) →
     (∃ j ∈ installs, ∃ m, run (mkSpec j) = Except.error m) →
      aggregateResult (batchLoop run mkSpec okM errM installs).1
          (batchLoop run mkSpec okM errM installs).2 installs.length =
        { success := true,
          output := joinNl (batchOks run mkSpec okM installs) ++ "\n\nWarnings:\n" ++
            joinNl (batchErrs run mkSpec errM installs),
          error := none }) := by
  rw [batchLoop_eq]
  have hlen := batch_len run mkSpec okM errM installs
  have hpos : 0 < installs.length := List.length_pos.mpr hne
  refine ⟨fun hall => ?_, fun hall => ?_, fun hex hex2 => ?_⟩
  · have hoks := batchOks_eq_nil run mkSpec okM installs hall
    have herr : (batchErrs run mkSpec errM installs).length = installs.length := by
      rw [hoks] at hlen
      simpa using hlen
    simp [aggregateResult, herr, hoks, joinNl, String.intercalate]
  · have herrs := batchErrs_eq_nil run mkSpec errM installs hall
    have h1 : ¬((batchErrs run mkSpec errM installs).length = installs.length) := by
      rw [herrs]
      simp only [List.length_nil]
      omega
    simp [aggregateResult, herrs, h1]
    omega
  · obtain ⟨i, hi, o, ho⟩ := hex
    obtain ⟨j, hj, m, hm⟩ := hex2
    have hoks := batchOks_ne_nil run mkSpec okM installs i o hi ho
    have herrs := batchErrs_ne_nil run mkSpec errM installs j m hj hm
    have hop : 0 < (batchOks run mkSpec okM installs).length :=
      List.length_pos.mpr hoks
    have hep : 0 < (batchErrs run mkSpec errM installs).length :=
      List.length_pos.mpr herrs
    have h1 : ¬((batchErrs run mkSpec errM installs).length = installs.length) := by
      omega
    simp [aggregateResult, h1, hep]

/-- C2: for a non-empty installations list, the multi-scope batch mutations
aggregate per-scope outcomes as: all scopes failed → `success = false` with
`error` the newline-joined per-scope failure messages; all scopes succeeded →
`success = true` with `output` the newline-joined per-scope outputs; mixed →
`success = true` with `output` the joined successes followed by a Warnings
block listing the failed scopes' messages. -/
theorem allScopes_aggregation (claude pluginName : String)
    (run : CmdSpec → Except String String) (installs : List BatchInst)
    (hne : installs ≠ []) :
    ((∀ i ∈ installs, ∃ m, run (updateSpec claude pluginName i) = Except.error m) →
      updatePluginAllScopes claude run pluginName installs =
        { success := false, output := "",
          error := some (joinNl
            (batchErrs run (updateSpec claude pluginName) updateErrMsg installs)) }) ∧
    ((∀ i ∈ installs, ∃ o, run (updateSpec claude pluginName i) = Except.ok o) →
      updatePluginAllScopes claude run pluginName installs =
        { success := true,
          output := joinNl (batchOks run (updateSpec claude pluginName) updateOkMsg installs),
          error := none }) ∧
    ((∃ i ∈ installs, ∃ o, run (updateSpec claude pluginName i) = Except.ok o) →
     (∃ j ∈ installs, ∃ m, run (updateSpec claude pluginName j) = Except.error m) →
      updatePluginAllScopes claude run pluginName installs =
        { success := true,
          output := joinNl (batchOks run (updateSpec claude pluginName) updateOkMsg installs)
            ++ "\n\nWarnings:\n" ++
            joinNl (batchErrs run (updateSpec claude pluginName) updateErrMsg installs),
          error := none }) ∧
    ((∀ i ∈ installs, ∃ m, run (uninstallSpec claude pluginName i) = Except.error m) →
      uninstallPluginAllScopes claude run pluginName installs =
        { success := false, output := "",
          error := some (joinNl
            (batchErrs run (uninstallSpec claude pluginName) uninstallErrMsg installs)) }) ∧
    ((∀ i ∈ installs, ∃ o, run (uninstallSpec claude pluginName i) = Except.ok o) →
      uninstallPluginAllScopes claude run pluginName installs =
        { success := true,
          output := joinNl (batchOks run (uninstallSpec claude pluginName) uninstallOkMsg installs),
          error := none }) ∧
    ((∃ i ∈ installs, ∃ o, run (uninstallSpec claude pluginName i) = Except.ok o) →
     (∃ j ∈ installs, ∃ m, run (uninstallSpec claude pluginName j) = Except.error m) →
      uninstallPluginAllScopes claude run pluginName installs =
        { success := true,
          output := joinNl (batchOks run (uninstallSpec claude pluginName) uninstallOkMsg installs)
            ++ "\n\nWarnings:\n" ++
            joinNl (batchErrs run (uninstallSpec claude pluginName) uninstallErrMsg installs),
          error := none }) := by
  obtain ⟨h1, h2, h3⟩ :=
    batch_aggregate run (updateSpec claude pluginName) updateOkMsg updateErrMsg installs hne
  obtain ⟨g1, g2, g3⟩ :=
    batch_aggregate run (uninstallSpec claude pluginName) uninstallOkMsg uninstallErrMsg installs hne
  exact ⟨h1, h2, h3, g1, g2, g3⟩

/-- Witness for C2: a two-scope update batch where the `user`-scope call
succeeds and the `project`-scope call fails aggregates to `success = true`
with the successful output followed by a Warnings block. -/
theorem allScopes_aggregation_witness :
    updatePluginAllScopes "claude"
        (fun spec => if spec.cwd = some "/p" then Except.error "boom" else Except.ok "fine")
        "tool-a"
        [⟨Scope.user, none⟩, ⟨Scope.project, some "/p"⟩] =
      { success := true,
        output := "Updated in user scope: fine\n\nWarnings:\nFailed to update in project scope: boom",
        error := none } := by
  have h := (allScopes_aggregation "claude" "tool-a"
      (fun spec => if spec.cwd = some "/p" then Except.error "boom" else Except.ok "fine")
      [⟨Scope.user, none⟩, ⟨Scope.project, some "/p"⟩] (by decide)).2.2.1
      ⟨⟨Scope.user, none⟩, by decide, "fine", rfl⟩
      ⟨⟨Scope.project, some "/p"⟩, by decide, "boom", rfl⟩
  exact h.trans (by decide)

/-- A marketplace whose manifest is present, parses, and carries a `plugins`
array contributes exactly its listing entries, in listing order. -/
theorem marketplacePlugins_eq_map (fs : FS) (installed : List InstalledPlugin)
    (m : Marketplace) (manifest : MarketplaceManifest)
    (entries : List MarketplacePluginEntry)
    (hman : readMarketplaceManifest fs m.installLocation = some manifest)
    (hpl : manifest.plugins = some entries) :
    marketplacePlugins fs installed m = entries.map (buildPlugin fs installed m) := by
  simp [marketplacePlugins, hman, hpl]

/-- Every listing entry of every registered marketplace with a readable
manifest yields its reconciled plugin in the catalog. -/
theorem buildPlugin_mem_catalog (fs : FS) (m : Marketplace)
    (manifest : MarketplaceManifest) (entries : List MarketplacePluginEntry)
    (entry : MarketplacePluginEntry)
    (hm : m ∈ getMarketplaces fs)
    (hman : readMarketplaceManifest fs m.installLocation = some manifest)
    (hpl : manifest.plugins = some entries)
    (he : entry ∈ entries) :
    buildPlugin fs (getInstalledPlugins fs) m entry ∈ getAllAvailablePlugins fs := by
  unfold getAllAvailablePlugins catalogFor
  refine List.mem_flatMap.mpr ⟨m, hm, ?_⟩
  rw [marketplacePlugins_eq_map fs (getInstalledPlugins fs) m manifest entries hman hpl]
  exact List.mem_map_of_mem _ he

/-- The installations array of a reconciled plugin is the filtered, normalized
projection of the installed-plugin registry. -/
theorem buildPlugin_installations (fs : FS) (installed : List InstalledPlugin)
    (m : Marketplace) (entry : MarketplacePluginEntry) :
    (buildPlugin fs installed m entry).installations =
      (installed.filter fun r => r.pluginId == entryPluginId entry m).map normInstall :=
  rfl

/-- C1: the reconciled Plugin emitted for listing entry E of marketplace M is
in the catalog and its installations array is exactly the set of
InstallationRecords whose stored `pluginId` equals
`trim(E.name) ++ "@" ++ trim(M.name)` — no more, no fewer — with each selected
record's missing `enabled` field normalized to `true`. -/
theorem catalog_installations_exact (fs : FS) (m : Marketplace)
    (manifest : MarketplaceManifest) (entries : List MarketplacePluginEntry)
    (entry : MarketplacePluginEntry)
    (hm : m ∈ getMarketplaces fs)
    (hman : readMarketplaceManifest fs m.installLocation = some manifest)
    (hpl : manifest.plugins = some entries)
    (he : entry ∈ entries) :
    buildPlugin fs (getInstalledPlugins fs) m entry ∈ getAllAvailablePlugins fs ∧
    (buildPlugin fs (getInstalledPlugins fs) m entry).installations =
      ((getInstalledPlugins fs).filter
        (fun r => r.pluginId == sTrim entry.name ++ "@" ++ sTrim m.name)).map normInstall ∧
    (∀ r ∈ getInstalledPlugins fs,
      r.pluginId = sTrim entry.name ++ "@" ++ sTrim m.name →
      normInstall r ∈ (buildPlugin fs (getInstalledPlugins fs) m entry).installations) ∧
    (∀ x ∈ (buildPlugin fs (getInstalledPlugins fs) m entry).installations,
      ∃ r ∈ getInstalledPlugins fs,
        r.pluginId = sTrim entry.name ++ "@" ++ sTrim m.name ∧ x = normInstall r ∧
        x.enabled = r.enabled.getD true) := by
  refine ⟨buildPlugin_mem_catalog fs m manifest entries entry hm hman hpl he,
    buildPlugin_installations fs (getInstalledPlugins fs) m entry,
    fun r hr hid => ?_, fun x hx => ?_⟩
  · rw [buildPlugin_installations]
    exact List.mem_map_of_mem _
      (List.mem_filter.mpr ⟨hr, by simp [entryPluginId, hid]⟩)
  · rw [buildPlugin_installations] at hx
    obtain ⟨r, hr, hxr⟩ := List.mem_map.mp hx
    have hrf := List.mem_filter.mp hr
    refine ⟨r, hrf.1, ?_, hxr.symm, ?_⟩
    · simpa [entryPluginId] using hrf.2
    · rw [← hxr]
      rfl

/-- C1 witness fixture: listing entry ` tool-a` (leading space). -/
def entryA : MarketplacePluginEntry :=
  ⟨" tool-a", "Tool A", none, none,
   EntrySource.ext ⟨"github", none, some "o/tool-a"⟩, none⟩

/-- C1 witness fixture: registered marketplace ` acme ` (extra whitespace). -/
def mktA : Marketplace :=
  ⟨" acme ", ⟨"github", some "o/r", none, none⟩, "/mp", "t2"⟩

/-- C1 witness fixture: a registry with two installations of `tool-a@acme`
(one with no `enabled` field, one disabled) and one of `other@acme`. -/
def fsA : FS where
  installedFile := some (Except.ok ⟨1,
    [("tool-a@acme",
      [⟨Scope.user, "/home/u/.claude/plugins/tool-a", "1.0.0", "t0", "t1", false, none, none⟩,
       ⟨Scope.project, "/proj/.claude/plugins/tool-a", "1.0.0", "t0", "t1", false,
        some false, some "/proj"⟩]),
     ("other@acme", [⟨Scope.user, "/x", "2.0", "t", "t", false, none, none⟩])]⟩)
  marketplacesFile := some (Except.ok
    [(" acme ", ⟨⟨"github", some "o/r", none, none⟩, "/mp", "t2"⟩)])
  manifestAt := fun p =>
    if p = "/mp/.claude-plugin/marketplace.json" then
      some (Except.ok ⟨"acme", "mp", some [entryA]⟩)
    else none
  dirExists := fun _ => false
  metaAt := fun _ => none

/-- Witness for C1: despite whitespace in both the listing name and the
registry key, exactly the two `tool-a@acme` records are selected (the
`other@acme` record is not), with the missing `enabled` defaulted to `true`. -/
theorem catalog_installations_exact_witness :
    (buildPlugin fsA (getInstalledPlugins fsA) mktA entryA).installations =
      [⟨Scope.user, "1.0.0", "/home/u/.claude/plugins/tool-a", true, none⟩,
       ⟨Scope.project, "1.0.0", "/proj/.claude/plugins/tool-a", false, some "/proj"⟩] ∧
    buildPlugin fsA (getInstalledPlugins fsA) mktA entryA ∈ getAllAvailablePlugins fsA := by
  have h := catalog_installations_exact fsA mktA ⟨"acme", "mp", some [entryA]⟩
    [entryA] entryA (by decide) rfl rfl (by decide)
  exact ⟨h.2.1.trans (by decide), h.1⟩

/-- C6: a marketplace whose listing manifest is missing or unparsable
contributes exactly zero plugins, its presence in the registry does not change
what the other marketplaces contribute to the catalog, and every other
marketplace with a readable manifest still contributes all of its listing
entries unchanged. -/
theorem marketplace_failure_isolation (fs : FS) (installed : List InstalledPlugin)
    (pre post : List Marketplace) (bad : Marketplace)
    (hbad : fs.manifestAt (manifestPath bad.installLocation) = none ∨
            fs.manifestAt (manifestPath bad.installLocation) = some (Except.error ())) :
    marketplacePlugins fs installed bad = [] ∧
    catalogFor fs installed (pre ++ bad :: post) = catalogFor fs installed (pre ++ post) ∧
    (∀ m ∈ pre ++ post, ∀ manifest entries,
      readMarketplaceManifest fs m.installLocation = some manifest →
      manifest.plugins = some entries →
      marketplacePlugins fs installed m = entries.map (buildPlugin fs installed m)) := by
  have hread : readMarketplaceManifest fs bad.installLocation = none := by
    rcases hbad with h | h <;> simp [readMarketplaceManifest, h]
  have hzero : marketplacePlugins fs installed bad = [] := by
    simp [marketplacePlugins, hread]
  refine ⟨hzero, ?_, fun m hm manifest entries hman hpl =>
    marketplacePlugins_eq_map fs installed m manifest entries hman hpl⟩
  simp [catalogFor, hzero]

/-- C6 witness fixture: the healthy marketplace. -/
def goodMkt : Marketplace := ⟨"good", ⟨"directory", none, some "/g", none⟩, "/g", "t"⟩

/-- C6 witness fixture: the marketplace whose manifest fails to parse. -/
def badMkt : Marketplace := ⟨"bad", ⟨"directory", none, some "/b", none⟩, "/b", "t"⟩

/-- C6 witness fixture: the healthy marketplace's single listing entry. -/
def entryB : MarketplacePluginEntry :=
  ⟨"p1", "P1", some "0.1", none, EntrySource.ext ⟨"url", some "http://x", none⟩, none⟩

/-- C6 witness fixture: `/g`'s manifest parses; `/b`'s manifest exists but is
malformed. -/
def fsB : FS where
  installedFile := none
  marketplacesFile := some (Except.ok
    [("good", ⟨⟨"directory", none, some "/g", none⟩, "/g", "t"⟩),
     ("bad", ⟨⟨"directory", none, some "/b", none⟩, "/b", "t"⟩)])
  manifestAt := fun p =>
    if p = "/g/.claude-plugin/marketplace.json" then
      some (Except.ok ⟨"good", "g", some [entryB]⟩)
    else if p = "/b/.claude-plugin/marketplace.json" then some (Except.error ())
    else none
  dirExists := fun _ => false
  metaAt := fun _ => none

/-- Witness for C6: with one healthy and one malformed marketplace, the
malformed one contributes zero plugins, the catalog equals the catalog without
it, and one plugin (the healthy marketplace's entry) is emitted. -/
theorem marketplace_failure_isolation_witness :
    catalogFor fsB [] [goodMkt, badMkt] = catalogFor fsB [] [goodMkt] ∧
    marketplacePlugins fsB [] badMkt = [] ∧
    (getAllAvailablePlugins fsB).length = 1 := by
  have h := marketplace_failure_isolation fsB [] [goodMkt] [] badMkt (Or.inr rfl)
  exact ⟨h.2.1, h.1, by decide⟩

/-- C8: a listing entry whose `source` is a structured external reference
(url/github/git object, not a local path string) never resolves to a local
path, its emitted Plugin has no `marketplacePath` and empty component
inventories, and the entry is still processed into the catalog (no error). -/
theorem external_source_entry (fs : FS) (installed : List InstalledPlugin)
    (m : Marketplace) (entry : MarketplacePluginEntry) (s : PluginSource)
    (hsrc : entry.source = EntrySource.ext s) :
    resolvePluginPath fs m.installLocation entry = none ∧
    (buildPlugin fs installed m entry).marketplacePath = none ∧
    (buildPlugin fs installed m entry).components = Components.empty ∧
    (∀ manifest entries, m ∈ getMarketplaces fs →
      readMarketplaceManifest fs m.installLocation = some manifest →
      manifest.plugins = some entries → entry ∈ entries →
      buildPlugin fs (getInstalledPlugins fs) m entry ∈ getAllAvailablePlugins fs) := by
  have hres : resolvePluginPath fs m.installLocation entry = none := by
    simp [resolvePluginPath, hsrc]
  refine ⟨hres, ?_, ?_, fun manifest entries hm hman hpl he =>
    buildPlugin_mem_catalog fs m manifest entries entry hm hman hpl he⟩
  · simp [buildPlugin, hres, jsOrS]
  · simp [buildPlugin, hres]

/-- C8 witness fixture: an entry backed by a git reference. -/
def entryC : MarketplacePluginEntry :=
  ⟨"ext-tool", "E", none, none,
   EntrySource.ext ⟨"git", some "https://g/x.git", none⟩, none⟩

/-- C8 witness fixture: the marketplace carrying `entryC`. -/
def mktC : Marketplace := ⟨"mc", ⟨"git", none, none, some "https://g/m.git"⟩, "/mc", "t"⟩

/-- C8 witness fixture: a file system on which every directory exists and every
plugin manifest parses — the external source must still yield no local
metadata. -/
def fsC : FS where
  installedFile := none
  marketplacesFile := some (Except.ok
    [("mc", ⟨⟨"git", none, none, some "https://g/m.git"⟩, "/mc", "t"⟩)])
  manifestAt := fun p =>
    if p = "/mc/.claude-plugin/marketplace.json" then
      some (Except.ok ⟨"mc", "", some [entryC]⟩)
    else none
  dirExists := fun _ => true
  metaAt := fun _ =>
    some ⟨some "n", some "9.9", some "D", none,
      ⟨some ⟨1, ["c"]⟩, none, none, none, some true⟩, some "u"⟩

/-- Witness for C8: even with every directory reported present and rich
metadata available everywhere, the git-sourced entry resolves no local path,
gets empty components, and is still emitted into the catalog. -/
theorem external_source_entry_witness :
    resolvePluginPath fsC "/mc" entryC = none ∧
    (buildPlugin fsC (getInstalledPlugins fsC) mktC entryC).marketplacePath = none ∧
    (buildPlugin fsC (getInstalledPlugins fsC) mktC entryC).components = Components.empty ∧
    buildPlugin fsC (getInstalledPlugins fsC) mktC entryC ∈ getAllAvailablePlugins fsC := by
  have h := external_source_entry fsC (getInstalledPlugins fsC) mktC entryC
    ⟨"git", some "https://g/x.git", none⟩ rfl
  exact ⟨h.1, h.2.1, h.2.2.1,
    h.2.2.2 ⟨"mc", "", some [entryC]⟩ [entryC] (by decide) rfl rfl (by decide)⟩

/-- Witness for C9: a descriptor declaring `name: tools` in a directory named
`dir-name` resolves to `tools`; a descriptor without front-matter falls back to
the directory name. -/
theorem skills_resolution_witness :
    extractSkillName ⟨some ["name: tools"]⟩ "dir-name" = "tools" ∧
    extractSkillName ⟨none⟩ "dir-name" = "dir-name" :=
  ⟨(skills_resolution "dir-name" ⟨some ["name: tools"]⟩).2.1 ["name: tools"]
      "tools" rfl (by decide) (by decide),
   (skills_resolution "dir-name" ⟨none⟩).2.2.2.1 rfl⟩

end ClaudePlugins

